import Mathlib

/-!
# Verification of the pi-hooks git checkpoint engine

A shallow embedding of `src/checkpoint/checkpoint.ts` (the checkpoint
store and restore engine of the `pi-hooks` repository), together with
theorems settling the frozen claims about it.

Strings are modelled as `List Char` (`Str`).  Git's object store is
modelled as association lists from names/hashes to contents; the hashes
themselves are abstract (content addressing is a property of git, not of
the hook).  Shell commands (`git reset --hard`, `git read-tree --reset`,
`git checkout-index -a -f`, `git update-ref`, `git commit-tree`,
`git cat-file commit`, `git for-each-ref`) are modelled by pure state
transformers with their documented semantics.  JavaScript's
`Date.prototype.toISOString` / `Date` parsing are modelled concretely by
a Gregorian-calendar conversion between epoch milliseconds and broken-out
UTC fields, plus the fixed-width ISO-8601 text format.
-/

set_option maxHeartbeats 1000000

namespace PiCheckpoint

/-- Strings as lists of characters. -/
abbrev Str := List Char

/-- The 40-zero sentinel sha (`const ZEROS = "0".repeat(40)`), denoting an
unborn HEAD. -/
def ZEROS : Str := List.replicate 40 '0'

/-- `const REF_BASE = "refs/pi-checkpoints"`. -/
def REF_BASE : Str := "refs/pi-checkpoints".data

/-- `const MAX_CHECKPOINTS = 100`. -/
def MAX_CHECKPOINTS : Nat := 100

/-- The `CheckpointData` interface of `checkpoint.ts`: id, turn index,
session id, HEAD sha, index (staged) tree sha, worktree tree sha and the
capture timestamp in milliseconds. -/
structure CheckpointData where
  id : Str
  turnIndex : Int
  sessionId : Str
  headSha : Str
  indexTreeSha : Str
  worktreeTreeSha : Str
  timestamp : Int
deriving DecidableEq, Repr

/-! ## Git working-state model (for `restoreCheckpoint`)

A repository state: the current HEAD commit name, the real index, the
working tree (both flat maps from paths to blob contents), and the object
store (commit name to committed tree, tree name to tree).  Maps are
association lists; `List.lookup` is the reading primitive. -/

/-- A flat tree / file map: association list from path to blob content. -/
abbrev FileMap := List (Str × Str)

/-- The mutable git state `restoreCheckpoint` operates on. -/
structure GitState where
  head : Str
  index : FileMap
  worktree : FileMap
  commits : List (Str × FileMap)
  trees : List (Str × FileMap)
deriving Repr

/-- The working tree after `git reset --hard` to a commit with tree `t`:
every path of `t` is (over)written; a path tracked by the old index
`oldIndex` but absent from `t` is deleted; every other (untracked) path
is left alone. -/
def resetWorktree (t oldIndex w : FileMap) : FileMap :=
  t ++ w.filter fun e => (t.lookup e.1).isNone && (oldIndex.lookup e.1).isNone

/-- `git reset --hard <sha>` (step 1 of restore): move HEAD to `sha`, set
the index to the commit's tree, and make tracked files match that tree.
Fails (`none`) if the commit is unknown. -/
def resetHard (st : GitState) (sha : Str) : Option GitState :=
  (st.commits.lookup sha).map fun t =>
    { st with head := sha, index := t, worktree := resetWorktree t st.index st.worktree }

/-- `git read-tree --reset <tree>` (steps 2 and 4 of restore): replace the
index entries by the tree's entries without touching files on disk.
Fails (`none`) if the tree is unknown. -/
def readTreeReset (st : GitState) (sha : Str) : Option GitState :=
  (st.trees.lookup sha).map fun t => { st with index := t }

/-- The working tree after `git checkout-index -a -f`: every index entry
is written out (overwriting), nothing is deleted. -/
def checkoutWorktree (ix w : FileMap) : FileMap :=
  ix ++ w.filter fun e => (ix.lookup e.1).isNone

/-- `git checkout-index -a -f` (step 3 of restore): materialize every
index entry onto disk, overwriting existing files, deleting nothing. -/
def checkoutIndexAll (st : GitState) : GitState :=
  { st with worktree := checkoutWorktree st.index st.worktree }

/-- The error message thrown for the unborn-head sentinel. -/
def unbornMsg : Str := "Cannot restore: checkpoint was saved with no commits".data

/-- `restoreCheckpoint` (lines 183–218): guard against the unborn-head
sentinel, then the fixed four-step sequence.  An error carries the message
and the state at the moment of failure (a thrown step aborts the sequence;
already-applied steps are not rolled back). -/
def restoreCheckpoint (st : GitState) (cp : CheckpointData) :
    Except (Str × GitState) GitState :=
  if cp.headSha = ZEROS then
    .error (unbornMsg, st)
  else
    match resetHard st cp.headSha with
    | none => .error ("git reset --hard failed".data, st)
    | some st1 =>
      match readTreeReset st1 cp.worktreeTreeSha with
      | none => .error ("git read-tree failed".data, st1)
      | some st2 =>
        let st3 := checkoutIndexAll st2
        match readTreeReset st3 cp.indexTreeSha with
        | none => .error ("git read-tree failed".data, st3)
        | some st4 => .ok st4

/-! ## Worktree capture model (for `createCheckpoint`, step 3)

`createCheckpoint` captures the worktree with `git add -A .` against a
temporary index (lines 117–134).  `git add -A` honors `.gitignore` and
nothing else: every file not matched by an ignore rule is staged,
whatever its size and whatever directory it lives in. -/

/-- A file of the working tree as seen by capture: its path and size in
bytes (content is irrelevant to the filtering claims). -/
structure WtFile where
  path : Str
  size : Nat
deriving DecidableEq, Repr

/-- `git add -A .` into the temporary index (line 124): stages exactly the
files not matched by the repository's `.gitignore` rules (`ign`).  The
resulting list is the entry set of the captured worktree tree. -/
def addAllCapture (files : List WtFile) (ign : Str → Bool) : List WtFile :=
  files.filter fun f => !(ign f.path)

/-- The SmartFilter eligibility rule as the spec words it (`isEligible`):
an untracked file is eligible only if no path component matches an
ignored-directory name and its size is at most the threshold (10 MiB
default).  Stated here solely for comparison with `addAllCapture`; the
source of `createCheckpoint` contains no such filter. -/
def specSmartFilterEligible (ignoredDirs : List Str) (sizeLimit : Nat)
    (f : WtFile) : Bool :=
  !(ignoredDirs.any fun d => (f.path.splitOn '/').contains d) &&
    f.size ≤ sizeLimit

/-- The spec's default size threshold: 10 MiB. -/
def specSizeLimit : Nat := 10 * 1024 * 1024

/-! ## Checkpoint selection (branch handler, lines 452–494) -/

/-- The branch handler's first sort: descending by timestamp
(`.sort((a, b) => b.timestamp - a.timestamp)`). -/
def sortDescByTimestamp (cps : List CheckpointData) : List CheckpointData :=
  cps.mergeSort fun a b => decide (b.timestamp ≤ a.timestamp)

/-- The selection of the branch handler: among all known checkpoints keep
those with `timestamp >= targetTimestamp`, sort ascending, take the first
(`checkpointsAtOrAfterTarget[0]`); `none` when the filtered set is empty
(the "No checkpoint found for this message" outcome). -/
def selectCheckpoint (cps : List CheckpointData) (target : Int) :
    Option CheckpointData :=
  let allCheckpoints := sortDescByTimestamp cps
  let atOrAfter :=
    (allCheckpoints.filter fun cp => decide (target ≤ cp.timestamp)).mergeSort
      fun a b => decide (a.timestamp ≤ b.timestamp)
  atOrAfter.head?

/-! ## Retention (`pruneCheckpoints`, lines 285–306)

`git for-each-ref --sort=committerdate` hands the hook the ref names
sorted by commit time ascending; if more than `MAX_CHECKPOINTS` exist the
first `count - MAX_CHECKPOINTS` (the oldest) are deleted, each deletion
independently fire-and-forget (`.catch(() => {})`). -/

/-- The refs `pruneCheckpoints` attempts to delete, given the listing in
commit-time ascending order: the oldest `count - MAX_CHECKPOINTS` when the
count exceeds `MAX_CHECKPOINTS`, nothing otherwise. -/
def pruneTargets (refs : List Str) : List Str :=
  if refs.length ≤ MAX_CHECKPOINTS then []
  else refs.take (refs.length - MAX_CHECKPOINTS)

/-- The refs remaining after `pruneCheckpoints`: a targeted ref disappears
exactly when its own `git update-ref -d` succeeds (`delOk`); one failed
deletion does not block the others. -/
def pruneCheckpoints (refs : List Str) (delOk : Str → Bool) : List Str :=
  refs.filter fun r => !(decide (r ∈ pruneTargets refs) && delOk r)

/-! ## The branch event handler as an action trace (lines 426–586)

The temporal claims about the handler concern the order of its effects.
We model one run of the `branch` handler as the list of effectful actions
it performs, in program order, parameterised by the data that drives its
control flow: git availability, the session id found in the branched
entries, the current session id, the known checkpoints, the target
timestamp, and the answer the user gives to the `ctx.ui.select` prompt. -/

/-- The effectful actions of the branch handler, in the order the source
performs them. -/
inductive HookAction where
  /-- `await Promise.all(pendingCheckpoints)` (line 433). -/
  | awaitPendingCheckpoints
  /-- `loadCheckpointsForSession` for the entries' session (line 449). -/
  | loadSessionA (sid : Str)
  /-- the filter/sort selection decision over the known records
  (lines 454–494). -/
  | selectDecision
  /-- a `ctx.ui.notify` call. -/
  | notifyA (msg : Str)
  /-- the `ctx.ui.select` prompt (line 516). -/
  | promptA
  /-- `createCheckpoint` of the fresh "before-restore" snapshot. -/
  | createBeforeA
  /-- `completedCheckpoints.push(beforeCheckpoint)` registration. -/
  | registerBeforeA
  /-- `restoreCheckpoint` applying a record to the working tree. -/
  | restoreA
deriving DecidableEq, Repr

/-- The user's answer to the restore prompt (line 516); `cancel` also
stands for a null choice. -/
inductive BranchChoice where
  | restoreAll
  | conversationOnly
  | codeOnly
  | restoreOldest
  | cancel
deriving DecidableEq, Repr

/-- One run of the `branch` handler (lines 426–586) as its action trace:
return immediately when git is unavailable; await all pending captures;
load the entries' session records when they belong to a different
session; bail out when no checkpoint is known; make the selection
decision; bail out when no record is at or after the target; prompt; then
per choice: nothing on cancel/conversation-only, a bare restore on
restore-oldest (offered only when more than one record is known), and a
before-restore capture + registration + restore on code-only and
restore-all. -/
def branchTrace (gitAvailable : Bool) (entriesSession : Option Str)
    (currentSession : Str) (cps : List CheckpointData) (target : Int)
    (choice : BranchChoice) : List HookAction :=
  if !gitAvailable then []
  else
    HookAction.awaitPendingCheckpoints ::
      ((match entriesSession with
        | some sid =>
          if sid ≠ currentSession then [HookAction.loadSessionA sid] else []
        | none => []) ++
        if (sortDescByTimestamp cps).isEmpty then
          [HookAction.notifyA "No checkpoints available".data]
        else
          HookAction.selectDecision ::
            match selectCheckpoint cps target with
            | none => [HookAction.notifyA "No checkpoint found for this message".data]
            | some _ =>
              HookAction.promptA ::
                match choice with
                | .cancel => []
                | .conversationOnly => []
                | .restoreOldest =>
                  if (sortDescByTimestamp cps).length > 1 then
                    [HookAction.restoreA]
                  else []
                | .codeOnly =>
                  [HookAction.createBeforeA, HookAction.registerBeforeA,
                    HookAction.restoreA]
                | .restoreAll =>
                  [HookAction.createBeforeA, HookAction.registerBeforeA,
                    HookAction.restoreA])

/-! ## The turn-start handler as a state machine (lines 380–424)

The handler's session-lasting state: git availability, the
`checkpointingFailed` latch, the current session id and the completed
records.  The fire-and-forget capture is represented by its awaited
outcome; the `try`/`catch` inside the async body makes the step total —
a capture failure is converted into setting `checkpointingFailed`,
never into an exception reaching the turn. -/

/-- The handler state captured by the hook's closure variables. -/
structure HookState where
  gitAvailable : Bool
  checkpointingFailed : Bool
  currentSessionId : Str
  completed : List CheckpointData
deriving Repr

/-- The awaited outcome of one `createCheckpoint` call. -/
inductive CaptureOutcome where
  /-- the capture succeeded and produced a record. -/
  | success (d : CheckpointData)
  /-- the capture threw (`catch` branch, line 415). -/
  | failure
deriving Repr

/-- One `turn_start` event (lines 380–424): skip when git is unavailable,
when a previous capture failed, or when no session id is known; otherwise
attempt a capture, pushing the record on success and latching
`checkpointingFailed` on failure.  The returned flag tells whether a
capture was attempted. -/
def turnStartStep (st : HookState) (outcome : CaptureOutcome) :
    HookState × Bool :=
  if !st.gitAvailable || st.checkpointingFailed then (st, false)
  else if st.currentSessionId = [] then (st, false)
  else
    match outcome with
    | .success d => ({ st with completed := st.completed ++ [d] }, true)
    | .failure => ({ st with checkpointingFailed := true }, true)

/-- A whole session tail: fold `turnStartStep` over the outcomes of the
successive turn-start events, collecting the per-turn attempted flags. -/
def runTurns (st : HookState) (outcomes : List CaptureOutcome) :
    HookState × List Bool :=
  match outcomes with
  | [] => (st, [])
  | o :: rest =>
    let (st1, attempted) := turnStartStep st o
    let (st2, flags) := runTurns st1 rest
    (st2, attempted :: flags)

/-! ## JavaScript dates: epoch milliseconds vs. broken-out UTC fields

`createCheckpoint` timestamps records with `Date.now()` and serializes
the value as `new Date(timestamp).toISOString()`;
`loadCheckpointFromRef` reads it back with `new Date(str).getTime()`.
We model that host functionality concretely: the proleptic Gregorian
calendar maps epoch milliseconds to `(year, month, day, hour, minute,
second, ms)` UTC fields and back, and the fixed-width ISO-8601 layout
`YYYY-MM-DDTHH:MM:SS.sssZ` maps fields to text and back. -/

/-- Gregorian leap-year rule. -/
def isLeap (y : Nat) : Bool := (y % 4 == 0 && y % 100 != 0) || y % 400 == 0

/-- Days of year `y`. -/
def daysInYear (y : Nat) : Nat := if isLeap y then 366 else 365

/-- Walk forward from year `y`, consuming whole years out of `d` days
(fuel-driven; every step consumes at least 365 days, so any fuel above
`d` is enough). -/
def yearSplitAux (fuel y d : Nat) : Nat × Nat :=
  match fuel with
  | 0 => (y, d)
  | fuel + 1 =>
    if daysInYear y ≤ d then yearSplitAux fuel (y + 1) (d - daysInYear y)
    else (y, d)

/-- Walk forward from year `y`, consuming whole years out of `d` days;
returns the final year and the remaining day-of-year. -/
def yearSplit (y d : Nat) : Nat × Nat := yearSplitAux (d + 1) y d

/-- Days in the half-open span of `n` years starting at year `y`. -/
def spanDays (y n : Nat) : Nat :=
  match n with
  | 0 => 0
  | n + 1 => daysInYear y + spanDays (y + 1) n

/-- Days from 1970-01-01 to the start of year `y` (0 for `y ≤ 1970`). -/
def epochDays : Nat → Nat
  | 0 => 0
  | y + 1 => if y + 1 ≤ 1970 then 0 else epochDays y + daysInYear y

/-- The twelve month lengths of a (leap or common) year. -/
def monthLengths (leap : Bool) : List Nat :=
  [31, if leap then 29 else 28, 31, 30, 31, 30, 31, 31, 30, 31, 30, 31]

/-- Walk the month lengths `ls` starting at month number `m`, consuming
whole months out of `d` days; returns the final month number and the
remaining zero-based day-of-month. -/
def monthWalk (m : Nat) (ls : List Nat) (d : Nat) : Nat × Nat :=
  match ls with
  | [] => (m, d)
  | len :: rest => if d < len then (m, d) else monthWalk (m + 1) rest (d - len)

/-- Broken-out UTC date/time fields (month and day 1-based). -/
structure DateFields where
  year : Nat
  month : Nat
  day : Nat
  hour : Nat
  minute : Nat
  second : Nat
  ms : Nat
deriving DecidableEq, Repr

/-- Epoch milliseconds to UTC fields (the field extraction behind
`Date.prototype.toISOString`). -/
def millisToFields (t : Nat) : DateFields :=
  let days := t / 86400000
  let rem := t % 86400000
  let ys := yearSplit 1970 days
  let mo := monthWalk 1 (monthLengths (isLeap ys.1)) ys.2
  { year := ys.1, month := mo.1, day := mo.2 + 1,
    hour := rem / 3600000, minute := rem % 3600000 / 60000,
    second := rem % 60000 / 1000, ms := rem % 1000 }

/-- UTC fields to epoch milliseconds (the computation behind parsing an
ISO date string with `new Date(...)`). -/
def fieldsToMillis (f : DateFields) : Nat :=
  let days := epochDays f.year +
    ((monthLengths (isLeap f.year)).take (f.month - 1)).sum + (f.day - 1)
  days * 86400000 + f.hour * 3600000 + f.minute * 60000 +
    f.second * 1000 + f.ms

/-- The decimal digit character of `d < 10`. -/
def digitChar (d : Nat) : Char := Char.ofNat (48 + d)

/-- The numeric value of a digit character. -/
def digitVal (c : Char) : Nat := c.toNat - 48

/-- `\d` of the source's regexes: an ASCII decimal digit. -/
def isDigitChar (c : Char) : Bool :=
  decide (48 ≤ c.toNat) && decide (c.toNat ≤ 57)

/-- `n` as two decimal digits (zero-padded). -/
def pad2 (n : Nat) : Str := [digitChar (n / 10 % 10), digitChar (n % 10)]

/-- `n` as three decimal digits (zero-padded). -/
def pad3 (n : Nat) : Str :=
  [digitChar (n / 100 % 10), digitChar (n / 10 % 10), digitChar (n % 10)]

/-- `n` as four decimal digits (zero-padded). -/
def pad4 (n : Nat) : Str :=
  [digitChar (n / 1000 % 10), digitChar (n / 100 % 10),
    digitChar (n / 10 % 10), digitChar (n % 10)]

/-- The `YYYY-MM-DDTHH:MM:SS.sssZ` layout of `toISOString` (years up to
9999; the engine switches to an expanded-year format beyond). -/
def isoFormat (f : DateFields) : Str :=
  pad4 f.year ++ '-' :: pad2 f.month ++ '-' :: pad2 f.day ++
    'T' :: pad2 f.hour ++ ':' :: pad2 f.minute ++ ':' :: pad2 f.second ++
    '.' :: pad3 f.ms ++ ['Z']

/-- `new Date(timestamp).toISOString()` for `0 ≤ timestamp` below year
10000. -/
def toISOString (t : Nat) : Str := isoFormat (millisToFields t)

/-- Parsing the fixed-width ISO layout back into fields (the date-time
string format recognised by `new Date(...)`); `none` for anything else
(an invalid date). -/
def isoParse (s : Str) : Option DateFields :=
  match s with
  | [y1, y2, y3, y4, '-', m1, m2, '-', d1, d2, 'T', h1, h2, ':',
      i1, i2, ':', s1, s2, '.', x1, x2, x3, 'Z'] =>
    if ([y1, y2, y3, y4, m1, m2, d1, d2, h1, h2, i1, i2, s1, s2,
        x1, x2, x3].all isDigitChar) then
      some { year := digitVal y1 * 1000 + digitVal y2 * 100 +
               digitVal y3 * 10 + digitVal y4,
             month := digitVal m1 * 10 + digitVal m2,
             day := digitVal d1 * 10 + digitVal d2,
             hour := digitVal h1 * 10 + digitVal h2,
             minute := digitVal i1 * 10 + digitVal i2,
             second := digitVal s1 * 10 + digitVal s2,
             ms := digitVal x1 * 100 + digitVal x2 * 10 + digitVal x3 }
    else none
  | _ => none

/-- `new Date(s).getTime()` on an ISO string: the epoch milliseconds, or
`none` for an invalid date (`NaN` in JavaScript). -/
def jsDateParseMs (s : Str) : Option Nat := (isoParse s).map fieldsToMillis

/-! ## Decimal integers (the `turn` line)

`createCheckpoint` writes `` `turn ${turnIndex}` `` (the JavaScript
decimal rendering of the number) and `loadCheckpointFromRef` reads it
back through the regex `^turn (-?\d+)$` and `parseInt`. -/

/-- The decimal digits of `n`, most significant first (fuel-driven; the
argument shrinks by a factor of ten per step, so any fuel above `n` is
enough). -/
def natToDecAux (fuel n : Nat) : Str :=
  match fuel with
  | 0 => []
  | fuel + 1 =>
    if n < 10 then [digitChar n]
    else natToDecAux fuel (n / 10) ++ [digitChar (n % 10)]

/-- The decimal rendering of `n`. -/
def natToDec (n : Nat) : Str := natToDecAux (n + 1) n

/-- The JavaScript decimal rendering of an integer. -/
def intToDec (i : Int) : Str :=
  if i < 0 then '-' :: natToDec i.natAbs else natToDec i.natAbs

/-- Fold a digit string into its value (most significant first). -/
def decToNat (ds : Str) : Nat := ds.foldl (fun a c => a * 10 + digitVal c) 0

/-- The regex `-?\d+` (anchored to the whole string) followed by
`parseInt(_, 10)`. -/
def parseDecInt (s : Str) : Option Int :=
  match s with
  | [] => none
  | c :: rest =>
    if c = '-' then
      if rest ≠ [] ∧ rest.all isDigitChar then
        some (-(decToNat rest : Int))
      else none
    else
      if (c :: rest).all isDigitChar then
        some ((decToNat (c :: rest) : Int))
      else none

/-! ## `String.prototype.trim` -/

/-- An ASCII whitespace character (the JavaScript `trim` set, restricted
to the characters that can occur here). -/
def isJsWs (c : Char) : Bool := c = ' ' || c = '\t' || c = '\n' || c = '\r'

/-- `String.prototype.trim`: strip leading and trailing whitespace. -/
def trimChars (s : Str) : Str :=
  ((s.dropWhile isJsWs).reverse.dropWhile isJsWs).reverse

/-! ## The commit-message metadata format (lines 136–177 and 220–266) -/

/-- A `key value` line. -/
def mkLine (key v : Str) : Str := key ++ ' ' :: v

/-- The multiline regex `^<key> (.+)$` applied to one line: the line must
start with `key` followed by a space, and at least one character must
follow; the capture is everything after the space. -/
def matchKV (key : Str) (line : Str) : Option Str :=
  if (key ++ [' ']) <+: line ∧ key.length + 1 < line.length then
    some (line.drop (key.length + 1))
  else none

/-- The first line of the message matching `^<key> (.+)$`. -/
def findField (key : Str) (lines : List Str) : Option Str :=
  lines.findSome? (matchKV key)

/-- The first line matching `^turn (-?\d+)$`, parsed. -/
def findTurn (lines : List Str) : Option Int :=
  lines.findSome? fun line => (matchKV "turn".data line).bind parseDecInt

/-- A commit object of the store: the tree it was committed against, the
author and committer header tails, and the message lines. -/
structure CommitObj where
  tree : Str
  author : Str
  committer : Str
  messageLines : List Str
deriving DecidableEq, Repr

/-- The header and message lines of `git cat-file commit` output: the
`tree`, `author` and `committer` headers, a blank separator line, then
the message. -/
def catFileLines (obj : CommitObj) : List Str :=
  ("tree ".data ++ obj.tree) :: ("author ".data ++ obj.author) ::
    ("committer ".data ++ obj.committer) :: [] :: obj.messageLines

/-- The flat `git cat-file commit` stdout the hook's regexes run over. -/
def catFileOut (obj : CommitObj) : Str :=
  List.intercalate ['\n'] (catFileLines obj)

/-- The git object store and ref namespace as `createCheckpoint` and
`loadCheckpointFromRef` touch them: refs to commit names, commit names to
commit objects. -/
structure RepoStore where
  refs : List (Str × Str)
  commits : List (Str × CommitObj)
deriving Repr

/-- The metadata message `createCheckpoint` builds (lines 137–145): the
`checkpoint:<id>` subject and the six `key value` lines in fixed order. -/
def createMessageLines (id : Str) (sessionId : Str) (turnIndex : Int)
    (headSha indexTreeSha worktreeTreeSha : Str) (t : Nat) : List Str :=
  [ "checkpoint:".data ++ id,
    mkLine "sessionId".data sessionId,
    mkLine "turn".data (intToDec turnIndex),
    mkLine "head".data headSha,
    mkLine "index-tree".data indexTreeSha,
    mkLine "worktree-tree".data worktreeTreeSha,
    mkLine "created".data (toISOString t) ]

/-- `createCheckpoint` (lines 92–181), given the shas the underlying git
calls produced (`headSha` from `rev-parse HEAD` or `ZEROS`,
`indexTreeSha` and `worktreeTreeSha` from the two `write-tree`s,
`commitSha` from `commit-tree`, whose content addressing is abstract
here) and the capture time `t` in epoch milliseconds: commit the metadata
message against the worktree tree and point `refs/pi-checkpoints/<id>` at
the commit.  Returns the in-memory record and the updated store. -/
def createCheckpoint (repo : RepoStore) (id : Str) (turnIndex : Int)
    (sessionId : Str) (headSha indexTreeSha worktreeTreeSha : Str)
    (t : Nat) (commitSha authorLine committerLine : Str) :
    CheckpointData × RepoStore :=
  let msg := createMessageLines id sessionId turnIndex headSha
    indexTreeSha worktreeTreeSha t
  let obj : CommitObj :=
    { tree := worktreeTreeSha, author := authorLine,
      committer := committerLine, messageLines := msg }
  ( { id := id, turnIndex := turnIndex, sessionId := sessionId,
      headSha := headSha, indexTreeSha := indexTreeSha,
      worktreeTreeSha := worktreeTreeSha, timestamp := (t : Int) },
    { refs := (REF_BASE ++ '/' :: id, commitSha) :: repo.refs,
      commits := (commitSha, obj) :: repo.commits } )

/-- `loadCheckpointFromRef` (lines 220–266): resolve the ref, read the
commit, match the six metadata regexes against the `cat-file` output;
`none` when the ref or commit cannot be read or any of the five required
lines is missing; a missing `created` line yields timestamp 0 (an
unparseable one yields `NaN` in JavaScript, modelled as 0 — no claim
depends on it). -/
def loadCheckpointFromRef (repo : RepoStore) (refName : Str) :
    Option CheckpointData :=
  match repo.refs.lookup (REF_BASE ++ '/' :: refName) with
  | none => none
  | some commitSha =>
    match repo.commits.lookup commitSha with
    | none => none
    | some obj =>
      let lines := (catFileOut obj).splitOn '\n'
      match findField "sessionId".data lines, findTurn lines,
          findField "head".data lines, findField "index-tree".data lines,
          findField "worktree-tree".data lines with
      | some sess, some turn, some hs, some ix, some wt =>
        some { id := refName, turnIndex := turn,
               sessionId := trimChars sess, headSha := trimChars hs,
               indexTreeSha := trimChars ix, worktreeTreeSha := trimChars wt,
               timestamp :=
                 match findField "created".data lines with
                 | none => 0
                 | some c =>
                   match jsDateParseMs (trimChars c) with
                   | some n => (n : Int)
                   | none => 0 }
      | _, _, _, _, _ => none

/-! ## Concrete data for witnesses and counterexamples -/

/-- The state a restore leaves behind, whether it succeeded or aborted at
some step (the error carries the state at the moment of failure). -/
def restoreResultState (r : Except (Str × GitState) GitState) : GitState :=
  match r with
  | .ok s => s
  | .error (_, s) => s

/-- A concrete checkpoint record with the given capture time. -/
def wCp (ts : Int) : CheckpointData :=
  { id := [], turnIndex := 0, sessionId := [], headSha := ['a'],
    indexTreeSha := ['b'], worktreeTreeSha := ['c'], timestamp := ts }

/-- The tree captured by the counterexample checkpoint: only `a`. -/
def cexTree0 : FileMap := [("a".data, "1".data)]

/-- The current head tree: the user added and committed `f` after the
checkpoint was taken. -/
def cexTree1 : FileMap := [("a".data, "1".data), ("f".data, "2".data)]

/-- A repository state in which `f` was created and committed after the
checkpoint `cexRecord` was captured, and `untr` is an untracked file. -/
def cexState : GitState :=
  { head := "c1".data, index := cexTree1,
    worktree := [("a".data, "1".data), ("f".data, "2".data), ("untr".data, "u".data)],
    commits := [("c0".data, cexTree0), ("c1".data, cexTree1)],
    trees := [("wt0".data, cexTree0), ("ix0".data, cexTree0)] }

/-- The checkpoint taken before `f` existed. -/
def cexRecord : CheckpointData :=
  { id := "k".data, turnIndex := 0, sessionId := "s".data,
    headSha := "c0".data, indexTreeSha := "ix0".data,
    worktreeTreeSha := "wt0".data, timestamp := 10 }

/-- A working tree holding an 11 MiB untracked file and a file inside
`node_modules`, neither matched by any `.gitignore` rule. -/
def cexFiles : List WtFile :=
  [⟨"big.bin".data, 11534336⟩, ⟨"node_modules/pkg/index.js".data, 100⟩]

/-- 101 distinct single-character ref names in commit-time order. -/
def w5refs : List Str := (List.range 101).map (fun n => [Char.ofNat (100 + n)])

/-- A healthy hook state at the start of a session. -/
def w8state : HookState :=
  { gitAvailable := true, checkpointingFailed := false,
    currentSessionId := "s".data, completed := [] }

/-- A commit object whose message has the five required lines but no
`created` line. -/
def w10obj : CommitObj :=
  { tree := "w".data, author := "a".data, committer := "c".data,
    messageLines := ["sessionId s".data, "turn 4".data, "head h".data,
      "index-tree i".data, "worktree-tree w".data] }

/-- A store holding one checkpoint ref pointing at `w10obj`. -/
def w10repo : RepoStore :=
  { refs := [(REF_BASE ++ '/' :: "r1".data, "c1".data)],
    commits := [("c1".data, w10obj)] }

end PiCheckpoint

/-! # Theorems -/

namespace PiCheckpoint

/-! ## Association-map lemmas -/

theorem lookup_filter_of_key (l : FileMap) (p : Str × Str → Bool) (k : Str)
    (hp : ∀ v, p (k, v) = true) :
    (l.filter p).lookup k = l.lookup k := by
  induction l with
  | nil => simp
  | cons hd tl ih =>
    obtain ⟨a, b⟩ := hd
    by_cases hk : a = k
    · subst hk
      simp [List.filter_cons, hp b, List.lookup]
    · have hbeq : (k == a) = false := by
        simp [beq_iff_eq]; exact fun h => hk h.symm
      by_cases hpab : p (a, b)
      · simp [List.filter_cons, hpab, List.lookup, hbeq, ih]
      · simp only [List.filter_cons] at *
        rw [if_neg (by simp [hpab])]
        simp [List.lookup, hbeq, ih]

theorem lookup_append_fm (l1 l2 : FileMap) (k : Str) :
    (l1 ++ l2).lookup k =
      match l1.lookup k with
      | some v => some v
      | none => l2.lookup k := by
  induction l1 with
  | nil => simp
  | cons hd tl ih =>
    by_cases hk : hd.1 = k
    · subst hk
      simp [List.lookup]
    · have hbeq : (k == hd.1) = false := by
        simp [beq_iff_eq]; exact fun h => hk h.symm
      simp [List.lookup, hbeq, ih]

/-! ## Restore safety (C1, C4) -/

theorem resetWorktree_keeps_untracked (t oldIndex w : FileMap) (f : Str)
    (huntracked : oldIndex.lookup f = none)
    (hpresent : (w.lookup f).isSome) :
    ((resetWorktree t oldIndex w).lookup f).isSome := by
  unfold resetWorktree
  cases htf : t.lookup f with
  | some v => simp [lookup_append_fm, htf]
  | none =>
    simp only [lookup_append_fm, htf]
    rw [lookup_filter_of_key w _ f (fun v => by simp [htf, huntracked])]
    exact hpresent

theorem checkoutWorktree_keeps (ix w : FileMap) (f : Str)
    (hpresent : (w.lookup f).isSome) :
    ((checkoutWorktree ix w).lookup f).isSome := by
  unfold checkoutWorktree
  cases hif : ix.lookup f with
  | some v => simp [lookup_append_fm, hif]
  | none =>
    simp only [lookup_append_fm, hif]
    rw [lookup_filter_of_key w _ f (fun v => by simp [hif])]
    exact hpresent

/-- C1 (amended): a file that is untracked at restore time (absent from
the current index) and present in the working tree is still present after
`restoreCheckpoint`, whether the restore succeeds or aborts at any step —
restore never deletes untracked files.  (The claim as frozen also covers
files the user created *and tracked* after the checkpoint; those are
deleted by step 1's `git reset --hard`, see `claim_C1_counterexample`.) -/
theorem claim_C1_nondestructive_amended (st : GitState) (cp : CheckpointData)
    (f : Str)
    (huntracked : st.index.lookup f = none)
    (hpresent : (st.worktree.lookup f).isSome) :
    ((restoreResultState (restoreCheckpoint st cp)).worktree.lookup f).isSome := by
  unfold restoreCheckpoint
  by_cases hz : cp.headSha = ZEROS
  · rw [if_pos hz]
    simpa [restoreResultState] using hpresent
  rw [if_neg hz]
  cases hc : resetHard st cp.headSha with
  | none =>
    dsimp only [restoreResultState]
    exact hpresent
  | some st1 =>
    dsimp only
    obtain ⟨t, hct, hst1⟩ : ∃ t, st.commits.lookup cp.headSha = some t ∧
        st1 = { st with head := cp.headSha, index := t, worktree := resetWorktree t st.index st.worktree } := by
      unfold resetHard at hc
      cases hl : st.commits.lookup cp.headSha with
      | none => rw [hl] at hc; simp at hc
      | some t0 => rw [hl] at hc; simp at hc; exact ⟨t0, rfl, hc.symm⟩
    have hpres1 : (st1.worktree.lookup f).isSome := by
      rw [hst1]
      exact resetWorktree_keeps_untracked t st.index st.worktree f huntracked hpresent
    cases hr2 : readTreeReset st1 cp.worktreeTreeSha with
    | none =>
      dsimp only [restoreResultState]
      exact hpres1
    | some st2 =>
      dsimp only
      have hpres2 : (st2.worktree.lookup f).isSome := by
        obtain ⟨wt, hwt, hst2⟩ : ∃ wt,
            st1.trees.lookup cp.worktreeTreeSha = some wt ∧
            st2 = { st1 with index := wt } := by
          unfold readTreeReset at hr2
          cases hl : st1.trees.lookup cp.worktreeTreeSha with
          | none => rw [hl] at hr2; simp at hr2
          | some w0 => rw [hl] at hr2; simp at hr2; exact ⟨w0, rfl, hr2.symm⟩
        rw [hst2]
        exact hpres1
      have hpres3 : ((checkoutIndexAll st2).worktree.lookup f).isSome := by
        unfold checkoutIndexAll
        exact checkoutWorktree_keeps st2.index st2.worktree f hpres2
      cases hr4 : readTreeReset (checkoutIndexAll st2) cp.indexTreeSha with
      | none =>
        dsimp only [restoreResultState]
        exact hpres3
      | some st4 =>
        dsimp only [restoreResultState]
        obtain ⟨ixt, hixt, hst4⟩ : ∃ ixt,
            (checkoutIndexAll st2).trees.lookup cp.indexTreeSha = some ixt ∧
            st4 = { checkoutIndexAll st2 with index := ixt } := by
          unfold readTreeReset at hr4
          cases hl : (checkoutIndexAll st2).trees.lookup cp.indexTreeSha with
          | none => rw [hl] at hr4; simp at hr4
          | some i0 => rw [hl] at hr4; simp at hr4; exact ⟨i0, rfl, hr4.symm⟩
        have hw4 : st4.worktree = (checkoutIndexAll st2).worktree := by rw [hst4]
        rw [hw4]
        exact hpres3

/-- C1 (counterexample): the claim as frozen is false.  In `cexState` the
file `f` was created, added and committed after checkpoint `cexRecord`
was taken; `f` is absent from the record's worktree tree, was present in
the working tree before the restore, and restoring the checkpoint
deletes it (step 1, `git reset --hard`, removes files tracked by the
current index that are absent from the target commit). -/
theorem claim_C1_counterexample :
    ((cexState.trees.lookup cexRecord.worktreeTreeSha).map
      fun wt => wt.lookup "f".data) = some none ∧
    cexState.worktree.lookup "f".data = some "2".data ∧
    ((restoreCheckpoint cexState cexRecord).toOption.map
      fun s2 => s2.worktree.lookup "f".data) = some none := by
  decide

theorem claim_C1_amended_witness :
    cexState.index.lookup "untr".data = none ∧
    (cexState.worktree.lookup "untr".data).isSome ∧
    ((restoreResultState (restoreCheckpoint cexState cexRecord)).worktree.lookup
      "untr".data).isSome :=
  ⟨by decide, by decide,
    claim_C1_nondestructive_amended cexState cexRecord "untr".data
      (by decide) (by decide)⟩

/-- C4: restoring a record whose head is the 40-zero sentinel fails with
the "unborn head" error before any of the four steps runs; the state
carried by the error is the input state unchanged — no filesystem, index
or ref mutation happens. -/
theorem claim_C4_unborn_guard (st : GitState) (cp : CheckpointData)
    (h : cp.headSha = ZEROS) :
    restoreCheckpoint st cp = .error (unbornMsg, st) := by
  unfold restoreCheckpoint
  rw [if_pos h]

theorem claim_C4_unborn_guard_witness :
    restoreCheckpoint cexState { cexRecord with headSha := ZEROS } =
      .error (unbornMsg, cexState) :=
  claim_C4_unborn_guard _ _ (by decide)

/-- C2: contrary to the claim (and to the repository's own README, which
documents SmartFilter), `createCheckpoint` captures the worktree with a
bare `git add -A .` honoring only `.gitignore`: with no ignore rules, an
11 MiB untracked file (over the documented 10 MiB threshold) and a file
under `node_modules` both end up in the captured worktree tree, although
the spec's `isEligible` rejects both. -/
theorem claim_C2_smartfilter_codebug :
    addAllCapture cexFiles (fun _ => false) = cexFiles ∧
    (⟨"big.bin".data, 11534336⟩ : WtFile) ∈ addAllCapture cexFiles (fun _ => false) ∧
    specSizeLimit < 11534336 ∧
    specSmartFilterEligible ["node_modules".data] specSizeLimit
      ⟨"big.bin".data, 11534336⟩ = false ∧
    (⟨"node_modules/pkg/index.js".data, 100⟩ : WtFile) ∈
      addAllCapture cexFiles (fun _ => false) ∧
    specSmartFilterEligible ["node_modules".data] specSizeLimit
      ⟨"node_modules/pkg/index.js".data, 100⟩ = false := by
  decide

/-- C5: with the listing sorted by commit time ascending and ref names
unique, prune deletes nothing when at most `MAX_CHECKPOINTS` refs exist;
otherwise it targets exactly the oldest `count - MAX_CHECKPOINTS` refs,
and when the per-ref deletions succeed exactly the `MAX_CHECKPOINTS` most
recent refs remain; a targeted ref whose own deletion succeeds is gone no
matter which other deletions fail. -/
theorem claim_C5_retention (refs : List Str) (tm : Str → Int) (delOk : Str → Bool)
    (hsorted : refs.Pairwise fun a b => tm a ≤ tm b) (hnd : refs.Nodup) :
    (refs.length ≤ MAX_CHECKPOINTS → pruneCheckpoints refs delOk = refs) ∧
    (MAX_CHECKPOINTS < refs.length →
      pruneTargets refs = refs.take (refs.length - MAX_CHECKPOINTS) ∧
      (pruneTargets refs).length = refs.length - MAX_CHECKPOINTS ∧
      (∀ d ∈ pruneTargets refs, ∀ k ∈ refs, k ∉ pruneTargets refs → tm d ≤ tm k) ∧
      ((∀ r, delOk r = true) →
        pruneCheckpoints refs delOk = refs.drop (refs.length - MAX_CHECKPOINTS) ∧
        (pruneCheckpoints refs delOk).length = MAX_CHECKPOINTS)) ∧
    (∀ r ∈ pruneTargets refs, delOk r = true → r ∉ pruneCheckpoints refs delOk) := by
  refine ⟨?_, ?_, ?_⟩
  · intro hle
    unfold pruneCheckpoints pruneTargets
    rw [if_pos hle]
    apply List.filter_eq_self.mpr
    intro a _
    simp
  · intro hgt
    have htg : pruneTargets refs = refs.take (refs.length - MAX_CHECKPOINTS) := by
      unfold pruneTargets
      rw [if_neg (by omega)]
    refine ⟨htg, ?_, ?_, ?_⟩
    · rw [htg, List.length_take]
      omega
    · intro d hd k hk hknot
      rw [htg] at hd hknot
      have hsplit : refs = refs.take (refs.length - MAX_CHECKPOINTS) ++
          refs.drop (refs.length - MAX_CHECKPOINTS) :=
        (List.take_append_drop _ refs).symm
      have hpw := hsplit ▸ hsorted
      rw [List.pairwise_append] at hpw
      have hkdrop : k ∈ refs.drop (refs.length - MAX_CHECKPOINTS) := by
        rcases (List.mem_append.mp (hsplit ▸ hk)) with h | h
        · exact absurd h hknot
        · exact h
      exact hpw.2.2 d hd k hkdrop
    · intro hall
      have heq : pruneCheckpoints refs delOk =
          refs.drop (refs.length - MAX_CHECKPOINTS) := by
        unfold pruneCheckpoints
        have hsplit : refs = refs.take (refs.length - MAX_CHECKPOINTS) ++
            refs.drop (refs.length - MAX_CHECKPOINTS) :=
          (List.take_append_drop _ refs).symm
        have hnd2 := hsplit ▸ hnd
        rw [List.nodup_append] at hnd2
        set p : Str → Bool := fun r => !(decide (r ∈ pruneTargets refs) && delOk r) with hp
        have h1 : (refs.take (refs.length - MAX_CHECKPOINTS)).filter p = [] := by
          apply List.filter_eq_nil_iff.mpr
          intro a ha
          have hmem : a ∈ pruneTargets refs := htg ▸ ha
          simp [hp, hmem, hall a]
        have h2 : (refs.drop (refs.length - MAX_CHECKPOINTS)).filter p =
            refs.drop (refs.length - MAX_CHECKPOINTS) := by
          apply List.filter_eq_self.mpr
          intro a ha
          have hnmem : a ∉ pruneTargets refs := by
            rw [htg]
            intro hmem
            exact hnd2.2.2 hmem ha
          simp [hp, hnmem]
        conv_lhs => rw [hsplit]
        rw [List.filter_append, h1, h2, List.nil_append]
      refine ⟨heq, ?_⟩
      rw [heq, List.length_drop]
      omega
  · intro r hr hok hmem
    unfold pruneCheckpoints at hmem
    have := List.of_mem_filter hmem
    simp [hr, hok] at this

theorem claim_C5_retention_witness :
    pruneCheckpoints w5refs (fun _ => true) = w5refs.drop 1 ∧
    (pruneCheckpoints w5refs (fun _ => true)).length = MAX_CHECKPOINTS := by
  have h := (claim_C5_retention w5refs (fun s => ((s.headD ' ').toNat : Int))
    (fun _ => true) (by decide) (by decide)).2.1 (by decide)
  have h2 := h.2.2.2 (fun r => rfl)
  have hlen : w5refs.length - MAX_CHECKPOINTS = 1 := by decide
  rw [hlen] at h2
  exact h2

end PiCheckpoint

namespace PiCheckpoint

/-! ## Selection (C3) -/

theorem head_mergeSortTs_min (l : List CheckpointData) (x : CheckpointData)
    (h : ((l.mergeSort fun a b => decide (a.timestamp ≤ b.timestamp)).head?) = some x) :
    x ∈ l ∧ ∀ y ∈ l, x.timestamp ≤ y.timestamp := by
  have hperm : (l.mergeSort fun a b => decide (a.timestamp ≤ b.timestamp)).Perm l :=
    List.mergeSort_perm l _
  have hsorted :
      (l.mergeSort fun a b => decide (a.timestamp ≤ b.timestamp)).Pairwise
        (fun a b => (decide (a.timestamp ≤ b.timestamp)) = true) := by
    refine List.sorted_mergeSort ?_ ?_ l
    · intro a b c h1 h2
      simp only [decide_eq_true_eq] at *
      omega
    · intro a b
      simp only [Bool.or_eq_true, decide_eq_true_eq]
      omega
  rcases hl : l.mergeSort fun a b => decide (a.timestamp ≤ b.timestamp) with - | ⟨a, rest⟩
  · rw [hl] at h; simp at h
  · rw [hl] at h hperm hsorted
    simp only [List.head?_cons, Option.some.injEq] at h
    subst h
    constructor
    · exact hperm.mem_iff.mp (by simp)
    · intro y hy
      rcases List.mem_cons.mp (hperm.mem_iff.mpr hy) with h | h
      · subst h; omega
      · have := (List.pairwise_cons.mp hsorted).1 y h
        simpa using this

theorem mergeSortTs_nil_iff (l : List CheckpointData) :
    (l.mergeSort fun a b => decide (a.timestamp ≤ b.timestamp)) = [] ↔ l = [] := by
  constructor
  · intro h
    have := (List.mergeSort_perm l fun a b => decide (a.timestamp ≤ b.timestamp)).symm
    rw [h] at this
    exact this.eq_nil
  · intro h
    subst h
    simp [List.mergeSort_nil]

/-- C3: the branch handler's selection keeps exactly the records with
`capturedAt ≥ target` and returns one of minimal `capturedAt` among them;
it returns `none` (NotFound) precisely when every known record is older
than the target — no fallback to the most recent record. -/
theorem claim_C3_selector (cps : List CheckpointData) (target : Int) :
    (∀ c, selectCheckpoint cps target = some c →
      c ∈ cps ∧ target ≤ c.timestamp ∧
        ∀ c2 ∈ cps, target ≤ c2.timestamp → c.timestamp ≤ c2.timestamp) ∧
    (selectCheckpoint cps target = none ↔
      ∀ c ∈ cps, c.timestamp < target) := by
  have hperm1 : (sortDescByTimestamp cps).Perm cps := List.mergeSort_perm cps _
  have hmemfl : ∀ c, (c ∈ (sortDescByTimestamp cps).filter
      fun cp => decide (target ≤ cp.timestamp)) ↔
      (c ∈ cps ∧ target ≤ c.timestamp) := by
    intro c
    rw [List.mem_filter]
    simp [hperm1.mem_iff]
  constructor
  · intro c hc
    unfold selectCheckpoint at hc
    simp only at hc
    obtain ⟨hmem, hmin⟩ := head_mergeSortTs_min _ _ hc
    obtain ⟨hcps, htgt⟩ := (hmemfl c).mp hmem
    refine ⟨hcps, htgt, ?_⟩
    intro c2 hc2 hc2t
    exact hmin c2 ((hmemfl c2).mpr ⟨hc2, hc2t⟩)
  · unfold selectCheckpoint
    simp only
    rw [List.head?_eq_none_iff, mergeSortTs_nil_iff, List.filter_eq_nil_iff]
    constructor
    · intro h c hc
      have := h c (hperm1.mem_iff.mpr hc)
      simp only [decide_eq_true_eq] at this
      omega
    · intro h c hc
      have := h c (hperm1.mem_iff.mp hc)
      simp only [decide_eq_true_eq]
      omega

theorem claim_C3_selector_witness :
    selectCheckpoint [wCp 100, wCp 200, wCp 300] 150 = some (wCp 200) ∧
    selectCheckpoint [wCp 100, wCp 200, wCp 300] 300 = some (wCp 300) ∧
    selectCheckpoint [wCp 100, wCp 200, wCp 300] 350 = none ∧
    ((wCp 200) ∈ [wCp 100, wCp 200, wCp 300] ∧ (150 : Int) ≤ (wCp 200).timestamp ∧
      ∀ c2 ∈ [wCp 100, wCp 200, wCp 300], 150 ≤ c2.timestamp →
        (wCp 200).timestamp ≤ c2.timestamp) := by
  have h1 : selectCheckpoint [wCp 100, wCp 200, wCp 300] 150 = some (wCp 200) := by
    simp [selectCheckpoint, sortDescByTimestamp, List.mergeSort, wCp]
  have h2 : selectCheckpoint [wCp 100, wCp 200, wCp 300] 300 = some (wCp 300) := by
    simp [selectCheckpoint, sortDescByTimestamp, List.mergeSort, wCp]
  have h3 : selectCheckpoint [wCp 100, wCp 200, wCp 300] 350 = none := by
    simp [selectCheckpoint, sortDescByTimestamp, List.mergeSort, wCp]
  exact ⟨h1, h2, h3, (claim_C3_selector [wCp 100, wCp 200, wCp 300] 150).1 (wCp 200) h1⟩

/-! ## Branch handler ordering (C6, C7) -/

/-- C6: the code contradicts the claim (and the README's "saves current
state before restore").  When the user picks "Restore oldest checkpoint"
the handler calls `restoreCheckpoint` without creating or registering any
before-restore snapshot, while the code-only (and restore-all) paths do
create and register one before restoring. -/
theorem claim_C6_before_restore_codebug :
    branchTrace true none "s".data [wCp 50, wCp 60] 10 .restoreOldest =
      [.awaitPendingCheckpoints, .selectDecision, .promptA, .restoreA] ∧
    HookAction.createBeforeA ∉
      branchTrace true none "s".data [wCp 50, wCp 60] 10 .restoreOldest ∧
    branchTrace true none "s".data [wCp 50, wCp 60] 10 .codeOnly =
      [.awaitPendingCheckpoints, .selectDecision, .promptA,
        .createBeforeA, .registerBeforeA, .restoreA] := by
  refine ⟨?_, ?_, ?_⟩ <;>
    simp [branchTrace, selectCheckpoint, sortDescByTimestamp, List.mergeSort, wCp]

/-- C7: whenever the branch handler makes its selection decision, the very
first thing the run did was await all in-flight captures — the trace of
every run that contains the selection step starts with
`awaitPendingCheckpoints`. -/
theorem claim_C7_await_before_select (g : Bool) (es : Option Str) (cs : Str)
    (cps : List CheckpointData) (target : Int) (choice : BranchChoice)
    (h : HookAction.selectDecision ∈ branchTrace g es cs cps target choice) :
    (branchTrace g es cs cps target choice).head? =
      some HookAction.awaitPendingCheckpoints := by
  cases g
  · simp [branchTrace] at h
  · simp [branchTrace]

theorem claim_C7_await_before_select_witness :
    HookAction.selectDecision ∈ branchTrace true none "s".data [wCp 50] 10 .cancel ∧
    (branchTrace true none "s".data [wCp 50] 10 .cancel).head? =
      some HookAction.awaitPendingCheckpoints :=
  have hmem : HookAction.selectDecision ∈
      branchTrace true none "s".data [wCp 50] 10 .cancel := by
    simp [branchTrace, selectCheckpoint, sortDescByTimestamp, List.mergeSort, wCp]
  ⟨hmem, claim_C7_await_before_select _ _ _ _ _ _ hmem⟩

/-! ## Capture-failure containment (C8) -/

/-- C8: a failed automatic capture is contained — the handler's `catch`
turns it into latching `checkpointingFailed` (never an exception reaching
the turn), and once the latch is set every subsequent `turn_start` of
the session performs no capture attempt and leaves the state untouched. -/
theorem claim_C8_capture_failure_containment :
    (∀ st : HookState, (turnStartStep st .failure).2 = true →
      (turnStartStep st .failure).1.checkpointingFailed = true) ∧
    (∀ (st : HookState) (outs : List CaptureOutcome),
      st.checkpointingFailed = true →
      runTurns st outs = (st, List.replicate outs.length false)) ∧
    (∀ (st : HookState) (outs : List CaptureOutcome),
      (turnStartStep st .failure).2 = true →
      (runTurns (turnStartStep st .failure).1 outs).2 =
        List.replicate outs.length false) := by
  have hlatch : ∀ st : HookState, (turnStartStep st .failure).2 = true →
      (turnStartStep st .failure).1.checkpointingFailed = true := by
    intro st h
    unfold turnStartStep at *
    by_cases h1 : !st.gitAvailable || st.checkpointingFailed
    · rw [if_pos h1] at h; simp at h
    · rw [if_neg h1] at h ⊢
      by_cases h2 : st.currentSessionId = []
      · rw [if_pos h2] at h; simp at h
      · rw [if_neg h2] at h ⊢
  have hfrozen : ∀ (st : HookState) (outs : List CaptureOutcome),
      st.checkpointingFailed = true →
      runTurns st outs = (st, List.replicate outs.length false) := by
    intro st outs hf
    induction outs with
    | nil => simp [runTurns]
    | cons o rest ih =>
      have hstep : turnStartStep st o = (st, false) := by
        unfold turnStartStep
        rw [if_pos (by simp [hf])]
      simp [runTurns, hstep, ih, List.replicate]
  refine ⟨hlatch, hfrozen, ?_⟩
  intro st outs hatt
  rw [hfrozen _ outs (hlatch st hatt)]

theorem claim_C8_capture_failure_containment_witness :
    (turnStartStep w8state .failure).2 = true ∧
    (runTurns (turnStartStep w8state .failure).1
      [.success (wCp 1), .failure]).2 = [false, false] := by
  constructor
  · decide
  · have := (claim_C8_capture_failure_containment).2.2 w8state
      [.success (wCp 1), .failure] (by decide)
    simpa [List.replicate] using this

end PiCheckpoint

namespace PiCheckpoint

/-! ## The calendar inversion (towards C9) -/

theorem daysInYear_ge (y : Nat) : 365 ≤ daysInYear y := by
  unfold daysInYear; split <;> omega

theorem spanDays_zero (y : Nat) : spanDays y 0 = 0 := rfl

theorem spanDays_succ (y n : Nat) :
    spanDays y (n + 1) = daysInYear y + spanDays (y + 1) n := rfl

theorem yearSplitAux_spec : ∀ (fuel y d : Nat), d < fuel →
    y ≤ (yearSplitAux fuel y d).1 ∧
    spanDays y ((yearSplitAux fuel y d).1 - y) + (yearSplitAux fuel y d).2 = d ∧
    (yearSplitAux fuel y d).2 < daysInYear (yearSplitAux fuel y d).1 := by
  intro fuel
  induction fuel with
  | zero => intro y d h; omega
  | succ fuel ih =>
    intro y d h
    unfold yearSplitAux
    by_cases hle : daysInYear y ≤ d
    · rw [if_pos hle]
      have h365 := daysInYear_ge y
      obtain ⟨h1, h2, h3⟩ := ih (y + 1) (d - daysInYear y) (by omega)
      refine ⟨by omega, ?_, h3⟩
      have hn : (yearSplitAux fuel (y + 1) (d - daysInYear y)).1 - y =
          ((yearSplitAux fuel (y + 1) (d - daysInYear y)).1 - (y + 1)) + 1 := by
        omega
      rw [hn, spanDays_succ]
      omega
    · rw [if_neg hle]
      refine ⟨le_refl y, ?_, by dsimp only; omega⟩
      dsimp only
      rw [Nat.sub_self, spanDays_zero]
      omega

theorem epochDays_succ (y : Nat) (h : 1970 ≤ y) :
    epochDays (y + 1) = epochDays y + daysInYear y := by
  have hne : ¬ (y + 1 ≤ 1970) := by omega
  simp [epochDays, hne]

theorem epochDays_eq_spanDays : ∀ n, epochDays (1970 + n) = spanDays 1970 n := by
  have hback : ∀ (n y : Nat), spanDays y (n + 1) = spanDays y n + daysInYear (y + n) := by
    intro n
    induction n with
    | zero =>
      intro y
      simp [spanDays_succ, spanDays_zero]
    | succ n ih =>
      intro y
      rw [spanDays_succ, ih (y + 1), spanDays_succ]
      have hyy : y + 1 + n = y + (n + 1) := by omega
      rw [hyy]
      omega
  intro n
  induction n with
  | zero => rfl
  | succ n ih =>
    have h1 : 1970 + (n + 1) = (1970 + n) + 1 := by omega
    rw [h1, epochDays_succ _ (by omega), ih, hback]

theorem monthWalk_spec : ∀ (ls : List Nat) (m d : Nat),
    m ≤ (monthWalk m ls d).1 ∧
    (ls.take ((monthWalk m ls d).1 - m)).sum + (monthWalk m ls d).2 = d ∧
    (monthWalk m ls d).1 ≤ m + ls.length := by
  intro ls
  induction ls with
  | nil => intro m d; simp [monthWalk]
  | cons len rest ih =>
    intro m d
    unfold monthWalk
    by_cases hlt : d < len
    · rw [if_pos hlt]
      simp
    · rw [if_neg hlt]
      obtain ⟨h1, h2, h3⟩ := ih (m + 1) (d - len)
      have hlen : (len :: rest).length = rest.length + 1 := rfl
      refine ⟨by omega, ?_, by rw [hlen]; omega⟩
      have hn : (monthWalk (m + 1) rest (d - len)).1 - m =
          ((monthWalk (m + 1) rest (d - len)).1 - (m + 1)) + 1 := by omega
      rw [hn, List.take_succ_cons, List.sum_cons]
      omega

theorem monthWalk_day_lt : ∀ (ls : List Nat) (m d : Nat), d < ls.sum →
    ∃ len ∈ ls, (monthWalk m ls d).2 < len := by
  intro ls
  induction ls with
  | nil => intro m d h; simp at h
  | cons len rest ih =>
    intro m d h
    unfold monthWalk
    by_cases hlt : d < len
    · rw [if_pos hlt]
      exact ⟨len, by simp, hlt⟩
    · rw [if_neg hlt]
      simp only [List.sum_cons] at h
      obtain ⟨l2, hl2, hlt2⟩ := ih (m + 1) (d - len) (by omega)
      exact ⟨l2, by simp [hl2], hlt2⟩

theorem monthLengths_sum (leap : Bool) :
    (monthLengths leap).sum = if leap then 366 else 365 := by
  cases leap <;> decide

theorem monthLengths_le (leap : Bool) : ∀ len ∈ monthLengths leap, len ≤ 31 := by
  cases leap <;> decide

/-- The inversion at the heart of the persistence round-trip: recomposing
epoch milliseconds from the broken-out UTC fields is the identity. -/
theorem fieldsToMillis_millisToFields (t : Nat) :
    fieldsToMillis (millisToFields t) = t := by
  rcases hys : yearSplit 1970 (t / 86400000) with ⟨y, doy⟩
  have hspec := yearSplitAux_spec (t / 86400000 + 1) 1970 (t / 86400000) (by omega)
  rw [show yearSplitAux (t / 86400000 + 1) 1970 (t / 86400000) =
    yearSplit 1970 (t / 86400000) from rfl, hys] at hspec
  obtain ⟨hy1, hy2, hy3⟩ := hspec
  dsimp only at hy1 hy2 hy3
  rcases hmo : monthWalk 1 (monthLengths (isLeap y)) doy with ⟨m, d0⟩
  have hmspec := monthWalk_spec (monthLengths (isLeap y)) 1 doy
  rw [hmo] at hmspec
  obtain ⟨hm1, hm2, hm3⟩ := hmspec
  dsimp only at hm1 hm2 hm3
  have hepoch : epochDays y = spanDays 1970 (y - 1970) := by
    conv_lhs => rw [show y = 1970 + (y - 1970) by omega]
    rw [epochDays_eq_spanDays]
  simp only [millisToFields, fieldsToMillis, hys, hmo]
  rw [hepoch]
  omega

theorem spanDays_ge_365 : ∀ (n y : Nat), 365 * n ≤ spanDays y n := by
  intro n
  induction n with
  | zero => intro y; simp [spanDays_zero]
  | succ n ih =>
    intro y
    rw [spanDays_succ]
    have := daysInYear_ge y
    have := ih (y + 1)
    omega

/-- The broken-out fields of a capture time before the year 9993 fit the
fixed-width ISO layout. -/
theorem millisToFields_bounds (t : Nat) (ht : t < 253234080000000) :
    (millisToFields t).year ≤ 9999 ∧ (millisToFields t).month < 100 ∧
    (millisToFields t).day < 100 ∧ (millisToFields t).hour < 100 ∧
    (millisToFields t).minute < 100 ∧ (millisToFields t).second < 100 ∧
    (millisToFields t).ms < 1000 := by
  rcases hys : yearSplit 1970 (t / 86400000) with ⟨y, doy⟩
  have hspec := yearSplitAux_spec (t / 86400000 + 1) 1970 (t / 86400000) (by omega)
  rw [show yearSplitAux (t / 86400000 + 1) 1970 (t / 86400000) =
    yearSplit 1970 (t / 86400000) from rfl, hys] at hspec
  obtain ⟨hy1, hy2, hy3⟩ := hspec
  dsimp only at hy1 hy2 hy3
  rcases hmo : monthWalk 1 (monthLengths (isLeap y)) doy with ⟨m, d0⟩
  have hmspec := monthWalk_spec (monthLengths (isLeap y)) 1 doy
  rw [hmo] at hmspec
  obtain ⟨hm1, hm2, hm3⟩ := hmspec
  dsimp only at hm1 hm2 hm3
  have hge := spanDays_ge_365 (y - 1970) 1970
  have hyear : y ≤ 9999 := by
    by_contra hy
    push_neg at hy
    have hdays : t / 86400000 < 2930950 := by omega
    omega
  have hd0 : d0 < 32 := by
    have hsum : doy < (monthLengths (isLeap y)).sum := by
      rw [monthLengths_sum]
      have := hy3
      unfold daysInYear at this
      split at this <;> split <;> omega
    obtain ⟨len, hlen, hlt⟩ := monthWalk_day_lt (monthLengths (isLeap y)) 1 doy hsum
    rw [hmo] at hlt
    have := monthLengths_le (isLeap y) len hlen
    dsimp only at hlt
    omega
  have hmlen : (monthLengths (isLeap y)).length = 12 := by cases isLeap y <;> decide
  simp only [millisToFields, hys, hmo]
  refine ⟨hyear, by omega, by omega, by omega, by omega, by omega, by omega⟩

/-! ## The ISO text layer (towards C9) -/

theorem digitVal_digitChar (d : Nat) (h : d < 10) :
    digitVal (digitChar d) = d := by
  interval_cases d <;> decide

theorem isDigitChar_digitChar (d : Nat) (h : d < 10) :
    isDigitChar (digitChar d) = true := by
  interval_cases d <;> decide

theorem isJsWs_digitChar (d : Nat) (h : d < 10) :
    isJsWs (digitChar d) = false := by
  interval_cases d <;> decide

theorem isoParse_isoFormat (f : DateFields) (hy : f.year ≤ 9999)
    (hmo : f.month < 100) (hd : f.day < 100) (hh : f.hour < 100)
    (hmi : f.minute < 100) (hs : f.second < 100) (hms : f.ms < 1000) :
    isoParse (isoFormat f) = some f := by
  obtain ⟨y, mo, d, h, mi, s, ms⟩ := f
  simp only at hy hmo hd hh hmi hs hms
  have hdig : ∀ x : Nat, isDigitChar (digitChar (x % 10)) = true :=
    fun x => isDigitChar_digitChar _ (Nat.mod_lt _ (by omega))
  have hval : ∀ x : Nat, digitVal (digitChar (x % 10)) = x % 10 :=
    fun x => digitVal_digitChar _ (Nat.mod_lt _ (by omega))
  simp only [isoFormat, pad4, pad2, pad3, List.cons_append, List.nil_append]
  simp only [isoParse.eq_def]
  split
  · simp only [hval, Option.some.injEq, DateFields.mk.injEq]
    refine ⟨by omega, by omega, by omega, by omega, by omega, by omega, by omega⟩
  · rename_i hx
    exfalso
    apply hx
    simp [hdig]

/-- `new Date(new Date(t).toISOString()).getTime() = t` within the
four-digit-year range. -/
theorem jsDateParseMs_toISOString (t : Nat) (ht : t < 253234080000000) :
    jsDateParseMs (toISOString t) = some t := by
  unfold jsDateParseMs toISOString
  obtain ⟨h1, h2, h3, h4, h5, h6, h7⟩ := millisToFields_bounds t ht
  rw [isoParse_isoFormat (millisToFields t) h1 h2 h3 h4 h5 h6 h7]
  simp [fieldsToMillis_millisToFields]

theorem dropWhile_eq_self_of_not (p : Char → Bool) (l : Str)
    (h : ∀ c ∈ l, p c = false) : l.dropWhile p = l := by
  cases l with
  | nil => rfl
  | cons a rest =>
    rw [List.dropWhile_cons, h a (by simp)]
    simp

theorem trimChars_eq_self (s : Str) (h : ∀ c ∈ s, isJsWs c = false) :
    trimChars s = s := by
  unfold trimChars
  rw [dropWhile_eq_self_of_not _ _ h]
  rw [dropWhile_eq_self_of_not _ _ (by intro c hc; exact h c (List.mem_reverse.mp hc))]
  exact List.reverse_reverse s

theorem pad2_not_ws (n : Nat) : ∀ c ∈ pad2 n, isJsWs c = false := by
  intro c hc
  simp only [pad2, List.mem_cons, List.not_mem_nil, or_false] at hc
  rcases hc with rfl | rfl <;>
    exact isJsWs_digitChar _ (Nat.mod_lt _ (by omega))

theorem pad3_not_ws (n : Nat) : ∀ c ∈ pad3 n, isJsWs c = false := by
  intro c hc
  simp only [pad3, List.mem_cons, List.not_mem_nil, or_false] at hc
  rcases hc with rfl | rfl | rfl <;>
    exact isJsWs_digitChar _ (Nat.mod_lt _ (by omega))

theorem pad4_not_ws (n : Nat) : ∀ c ∈ pad4 n, isJsWs c = false := by
  intro c hc
  simp only [pad4, List.mem_cons, List.not_mem_nil, or_false] at hc
  rcases hc with rfl | rfl | rfl | rfl <;>
    exact isJsWs_digitChar _ (Nat.mod_lt _ (by omega))

theorem toISOString_not_ws (t : Nat) : ∀ c ∈ toISOString t, isJsWs c = false := by
  intro c hc
  unfold toISOString isoFormat at hc
  simp only [List.mem_append, List.mem_cons, List.mem_singleton,
    List.not_mem_nil, or_false, or_assoc] at hc
  rcases hc with hc | rfl | hc | rfl | hc | rfl | hc | rfl | hc | rfl | hc | rfl | hc | rfl
  · exact pad4_not_ws _ c hc
  · decide
  · exact pad2_not_ws _ c hc
  · decide
  · exact pad2_not_ws _ c hc
  · decide
  · exact pad2_not_ws _ c hc
  · decide
  · exact pad2_not_ws _ c hc
  · decide
  · exact pad2_not_ws _ c hc
  · decide
  · exact pad3_not_ws _ c hc
  · decide

theorem trim_toISOString (t : Nat) : trimChars (toISOString t) = toISOString t :=
  trimChars_eq_self _ (toISOString_not_ws t)

end PiCheckpoint

namespace PiCheckpoint

theorem decToNat_append_digit (xs : Str) (c : Char) :
    decToNat (xs ++ [c]) = decToNat xs * 10 + digitVal c := by
  simp [decToNat, List.foldl_append]

theorem natToDecAux_spec : ∀ (fuel n : Nat), n < fuel →
    natToDecAux fuel n ≠ [] ∧
    (∀ c ∈ natToDecAux fuel n, isDigitChar c = true) ∧
    decToNat (natToDecAux fuel n) = n := by
  intro fuel
  induction fuel with
  | zero => intro n h; omega
  | succ fuel ih =>
    intro n h
    unfold natToDecAux
    by_cases h10 : n < 10
    · rw [if_pos h10]
      refine ⟨by simp, ?_, ?_⟩
      · intro c hc
        simp only [List.mem_singleton] at hc
        subst hc
        exact isDigitChar_digitChar n h10
      · simp [decToNat, digitVal_digitChar n h10]
    · rw [if_neg h10]
      obtain ⟨h1, h2, h3⟩ := ih (n / 10) (by omega)
      refine ⟨by simp, ?_, ?_⟩
      · intro c hc
        rcases List.mem_append.mp hc with hc | hc
        · exact h2 c hc
        · simp only [List.mem_singleton] at hc
          subst hc
          exact isDigitChar_digitChar _ (Nat.mod_lt _ (by omega))
      · rw [decToNat_append_digit, h3, digitVal_digitChar _ (Nat.mod_lt _ (by omega))]
        omega

theorem isDigitChar_ne_dash (c : Char) (h : isDigitChar c = true) : ¬ (c = '-') := by
  intro hc
  subst hc
  simp [isDigitChar] at h

theorem parseDecInt_intToDec (i : Int) : parseDecInt (intToDec i) = some i := by
  by_cases hneg : i < 0
  · unfold intToDec
    rw [if_pos hneg]
    have hspec := natToDecAux_spec (i.natAbs + 1) i.natAbs (by omega)
    obtain ⟨h1, h2, h3⟩ := hspec
    simp only [parseDecInt.eq_def, if_true]
    rw [if_pos ⟨h1, List.all_eq_true.mpr h2⟩]
    unfold natToDec at *
    rw [h3]
    congr 1
    omega
  · unfold intToDec
    rw [if_neg hneg]
    have hspec := natToDecAux_spec (i.natAbs + 1) i.natAbs (by omega)
    obtain ⟨h1, h2, h3⟩ := hspec
    unfold natToDec at *
    cases hl : natToDecAux (i.natAbs + 1) i.natAbs with
    | nil => exact absurd hl h1
    | cons c rest =>
      rw [hl] at h2 h3
      simp only [parseDecInt.eq_def]
      rw [if_neg (isDigitChar_ne_dash c (h2 c (by simp)))]
      rw [if_pos (List.all_eq_true.mpr h2)]
      rw [h3]
      congr 1
      omega

theorem intToDec_all_digit_or_dash (i : Int) :
    ∀ c ∈ intToDec i, isDigitChar c = true ∨ c = '-' := by
  intro c hc
  unfold intToDec at hc
  split at hc
  · rcases List.mem_cons.mp hc with rfl | hc
    · right; rfl
    · left
      have hspec := natToDecAux_spec (i.natAbs + 1) i.natAbs (by omega)
      exact hspec.2.1 c hc
  · left
    have hspec := natToDecAux_spec (i.natAbs + 1) i.natAbs (by omega)
    exact hspec.2.1 c hc

theorem intToDec_ne_nil (i : Int) : intToDec i ≠ [] := by
  unfold intToDec
  split
  · simp
  · exact (natToDecAux_spec (i.natAbs + 1) i.natAbs (by omega)).1

theorem intToDec_no_nl (i : Int) : ('\n' : Char) ∉ intToDec i := by
  intro h
  rcases intToDec_all_digit_or_dash i '\n' h with h2 | h2
  · simp [isDigitChar] at h2
  · simp at h2

theorem toISOString_no_nl (t : Nat) : ('\n' : Char) ∉ toISOString t := by
  intro h
  have := toISOString_not_ws t '\n' h
  simp [isJsWs] at this

end PiCheckpoint

namespace PiCheckpoint

theorem mkLine_eq_append (key v : Str) : mkLine key v = (key ++ [' ']) ++ v := by
  simp [mkLine]

theorem matchKV_self (key v : Str) (hv : v ≠ []) :
    matchKV key (mkLine key v) = some v := by
  rw [mkLine_eq_append]
  unfold matchKV
  have hlen : (key ++ [' ']).length = key.length + 1 := by simp
  have hcond : (key ++ [' ']) <+: ((key ++ [' ']) ++ v) ∧
      key.length + 1 < ((key ++ [' ']) ++ v).length := by
    refine ⟨List.prefix_append _ _, ?_⟩
    have hv1 : 0 < v.length := List.length_pos.mpr hv
    simp only [List.length_append, List.length_cons, List.length_nil]
    omega
  rw [if_pos hcond, ← hlen, List.drop_left]

theorem not_prefix_append_of_incomp (a c w : Str) (h1 : ¬ a <+: c) (h2 : ¬ c <+: a) :
    ¬ a <+: (c ++ w) := by
  intro hp
  have hc : c <+: c ++ w := List.prefix_append _ _
  rcases le_total a.length c.length with hle | hle
  · exact h1 (List.prefix_of_prefix_length_le hp hc hle)
  · exact h2 (List.prefix_of_prefix_length_le hc hp hle)

theorem matchKV_none_of_incomp (key lit v : Str)
    (h1 : ¬ (key ++ [' ']) <+: lit) (h2 : ¬ lit <+: (key ++ [' '])) :
    matchKV key (lit ++ v) = none := by
  unfold matchKV
  rw [if_neg]
  rintro ⟨hp, -⟩
  exact not_prefix_append_of_incomp _ _ _ h1 h2 hp

theorem matchKV_mkLine_ne (key k2 v : Str)
    (h1 : ¬ (key ++ [' ']) <+: (k2 ++ [' '])) (h2 : ¬ (k2 ++ [' ']) <+: (key ++ [' '])) :
    matchKV key (mkLine k2 v) = none := by
  rw [mkLine_eq_append]
  exact matchKV_none_of_incomp key _ v h1 h2

theorem matchKV_nil (key : Str) : matchKV key [] = none := by
  unfold matchKV
  rw [if_neg]
  rintro ⟨-, hlen⟩
  simp at hlen

end PiCheckpoint

namespace PiCheckpoint

theorem splitOn_catFileOut (obj : CommitObj)
    (h : ∀ l ∈ catFileLines obj, ('\n' : Char) ∉ l) :
    (catFileOut obj).splitOn '\n' = catFileLines obj := by
  unfold catFileOut
  exact List.splitOn_intercalate _ _ h (by simp [catFileLines])

end PiCheckpoint

namespace PiCheckpoint

theorem toISOString_ne_nil (t : Nat) : toISOString t ≠ [] := by
  unfold toISOString isoFormat pad4
  simp

/-- C9: a record written by `createCheckpoint` — the six `key value`
metadata lines committed against the worktree tree, the ref
`refs/pi-checkpoints/<id>` pointing at the commit — is read back by
`loadCheckpointFromRef` under the same ref name with identical id,
sessionId, turnIndex, headSha, indexTreeSha, worktreeTreeSha and
timestamp (millisecond resolution).  Hypotheses: the free-text fields are
single-line, trim-stable and (except the id) nonempty, as the shas and
uuids git and the hook produce are, and the capture time lies in the
four-digit-year range of `toISOString`. -/
theorem claim_C9_persistence_roundtrip (repo : RepoStore)
    (id sess hs ix wtS au co csha : Str) (turn : Int) (t : Nat)
    (hid : ('\n' : Char) ∉ id)
    (hsess1 : ('\n' : Char) ∉ sess) (hsess2 : sess ≠ [])
    (hsess3 : trimChars sess = sess)
    (hhs1 : ('\n' : Char) ∉ hs) (hhs2 : hs ≠ []) (hhs3 : trimChars hs = hs)
    (hix1 : ('\n' : Char) ∉ ix) (hix2 : ix ≠ []) (hix3 : trimChars ix = ix)
    (hwt1 : ('\n' : Char) ∉ wtS) (hwt2 : wtS ≠ []) (hwt3 : trimChars wtS = wtS)
    (hau : ('\n' : Char) ∉ au) (hco : ('\n' : Char) ∉ co)
    (ht : t < 253234080000000) :
    loadCheckpointFromRef
      (createCheckpoint repo id turn sess hs ix wtS t csha au co).2 id =
      some (createCheckpoint repo id turn sess hs ix wtS t csha au co).1 := by
  simp only [createCheckpoint]
  unfold loadCheckpointFromRef
  have hr : ((REF_BASE ++ '/' :: id, csha) :: repo.refs).lookup
      (REF_BASE ++ '/' :: id) = some csha := by
    simp [List.lookup]
  rw [hr]
  dsimp only
  set obj : CommitObj :=
    { tree := wtS, author := au, committer := co,
      messageLines := createMessageLines id sess turn hs ix wtS t } with hobj
  have hcm : ((csha, obj) :: repo.commits).lookup csha = some obj := by
    simp [List.lookup]
  rw [hcm]
  dsimp only
  have hnonl : ∀ l ∈ catFileLines obj, ('\n' : Char) ∉ l := by
    intro l hl
    simp only [hobj, catFileLines, createMessageLines, List.mem_cons,
      List.not_mem_nil, or_false] at hl
    rcases hl with rfl | rfl | rfl | rfl | rfl | rfl | rfl | rfl | rfl | rfl | rfl
    · intro h; rcases List.mem_append.mp h with h | h
      · revert h; decide
      · exact hwt1 h
    · intro h; rcases List.mem_append.mp h with h | h
      · revert h; decide
      · exact hau h
    · intro h; rcases List.mem_append.mp h with h | h
      · revert h; decide
      · exact hco h
    · simp
    · intro h; rcases List.mem_append.mp h with h | h
      · revert h; decide
      · exact hid h
    · intro h
      simp only [mkLine, List.mem_append, List.mem_cons] at h
      rcases h with h | h | h
      · revert h; decide
      · revert h; decide
      · exact hsess1 h
    · intro h
      simp only [mkLine, List.mem_append, List.mem_cons] at h
      rcases h with h | h | h
      · revert h; decide
      · revert h; decide
      · exact intToDec_no_nl turn h
    · intro h
      simp only [mkLine, List.mem_append, List.mem_cons] at h
      rcases h with h | h | h
      · revert h; decide
      · revert h; decide
      · exact hhs1 h
    · intro h
      simp only [mkLine, List.mem_append, List.mem_cons] at h
      rcases h with h | h | h
      · revert h; decide
      · revert h; decide
      · exact hix1 h
    · intro h
      simp only [mkLine, List.mem_append, List.mem_cons] at h
      rcases h with h | h | h
      · revert h; decide
      · revert h; decide
      · exact hwt1 h
    · intro h
      simp only [mkLine, List.mem_append, List.mem_cons] at h
      rcases h with h | h | h
      · revert h; decide
      · revert h; decide
      · exact toISOString_no_nl t h
  rw [splitOn_catFileOut obj hnonl]
  have hlines : catFileLines obj =
      [("tree ".data ++ wtS), ("author ".data ++ au), ("committer ".data ++ co),
        [], ("checkpoint:".data ++ id), mkLine "sessionId".data sess,
        mkLine "turn".data (intToDec turn), mkLine "head".data hs,
        mkLine "index-tree".data ix, mkLine "worktree-tree".data wtS,
        mkLine "created".data (toISOString t)] := by
    simp [hobj, catFileLines, createMessageLines]
  rw [hlines]
  have hsessF : findField "sessionId".data
      [("tree ".data ++ wtS), ("author ".data ++ au), ("committer ".data ++ co),
        [], ("checkpoint:".data ++ id), mkLine "sessionId".data sess,
        mkLine "turn".data (intToDec turn), mkLine "head".data hs,
        mkLine "index-tree".data ix, mkLine "worktree-tree".data wtS,
        mkLine "created".data (toISOString t)] = some sess := by
    simp only [findField, List.findSome?_cons,
      matchKV_none_of_incomp "sessionId".data "tree ".data wtS (by decide) (by decide),
      matchKV_none_of_incomp "sessionId".data "author ".data au (by decide) (by decide),
      matchKV_none_of_incomp "sessionId".data "committer ".data co (by decide) (by decide),
      matchKV_nil,
      matchKV_none_of_incomp "sessionId".data "checkpoint:".data id (by decide) (by decide),
      matchKV_self "sessionId".data sess hsess2]
  have hturnF : findTurn
      [("tree ".data ++ wtS), ("author ".data ++ au), ("committer ".data ++ co),
        [], ("checkpoint:".data ++ id), mkLine "sessionId".data sess,
        mkLine "turn".data (intToDec turn), mkLine "head".data hs,
        mkLine "index-tree".data ix, mkLine "worktree-tree".data wtS,
        mkLine "created".data (toISOString t)] = some turn := by
    simp only [findTurn, List.findSome?_cons,
      matchKV_none_of_incomp "turn".data "tree ".data wtS (by decide) (by decide),
      matchKV_none_of_incomp "turn".data "author ".data au (by decide) (by decide),
      matchKV_none_of_incomp "turn".data "committer ".data co (by decide) (by decide),
      matchKV_nil,
      matchKV_none_of_incomp "turn".data "checkpoint:".data id (by decide) (by decide),
      matchKV_mkLine_ne "turn".data "sessionId".data sess (by decide) (by decide),
      matchKV_self "turn".data (intToDec turn) (intToDec_ne_nil turn),
      Option.none_bind, Option.some_bind, parseDecInt_intToDec]
  have hheadF : findField "head".data
      [("tree ".data ++ wtS), ("author ".data ++ au), ("committer ".data ++ co),
        [], ("checkpoint:".data ++ id), mkLine "sessionId".data sess,
        mkLine "turn".data (intToDec turn), mkLine "head".data hs,
        mkLine "index-tree".data ix, mkLine "worktree-tree".data wtS,
        mkLine "created".data (toISOString t)] = some hs := by
    simp only [findField, List.findSome?_cons,
      matchKV_none_of_incomp "head".data "tree ".data wtS (by decide) (by decide),
      matchKV_none_of_incomp "head".data "author ".data au (by decide) (by decide),
      matchKV_none_of_incomp "head".data "committer ".data co (by decide) (by decide),
      matchKV_nil,
      matchKV_none_of_incomp "head".data "checkpoint:".data id (by decide) (by decide),
      matchKV_mkLine_ne "head".data "sessionId".data sess (by decide) (by decide),
      matchKV_mkLine_ne "head".data "turn".data (intToDec turn) (by decide) (by decide),
      matchKV_self "head".data hs hhs2]
  have hixF : findField "index-tree".data
      [("tree ".data ++ wtS), ("author ".data ++ au), ("committer ".data ++ co),
        [], ("checkpoint:".data ++ id), mkLine "sessionId".data sess,
        mkLine "turn".data (intToDec turn), mkLine "head".data hs,
        mkLine "index-tree".data ix, mkLine "worktree-tree".data wtS,
        mkLine "created".data (toISOString t)] = some ix := by
    simp only [findField, List.findSome?_cons,
      matchKV_none_of_incomp "index-tree".data "tree ".data wtS (by decide) (by decide),
      matchKV_none_of_incomp "index-tree".data "author ".data au (by decide) (by decide),
      matchKV_none_of_incomp "index-tree".data "committer ".data co (by decide) (by decide),
      matchKV_nil,
      matchKV_none_of_incomp "index-tree".data "checkpoint:".data id (by decide) (by decide),
      matchKV_mkLine_ne "index-tree".data "sessionId".data sess (by decide) (by decide),
      matchKV_mkLine_ne "index-tree".data "turn".data (intToDec turn) (by decide) (by decide),
      matchKV_mkLine_ne "index-tree".data "head".data hs (by decide) (by decide),
      matchKV_self "index-tree".data ix hix2]
  have hwtF : findField "worktree-tree".data
      [("tree ".data ++ wtS), ("author ".data ++ au), ("committer ".data ++ co),
        [], ("checkpoint:".data ++ id), mkLine "sessionId".data sess,
        mkLine "turn".data (intToDec turn), mkLine "head".data hs,
        mkLine "index-tree".data ix, mkLine "worktree-tree".data wtS,
        mkLine "created".data (toISOString t)] = some wtS := by
    simp only [findField, List.findSome?_cons,
      matchKV_none_of_incomp "worktree-tree".data "tree ".data wtS (by decide) (by decide),
      matchKV_none_of_incomp "worktree-tree".data "author ".data au (by decide) (by decide),
      matchKV_none_of_incomp "worktree-tree".data "committer ".data co (by decide) (by decide),
      matchKV_nil,
      matchKV_none_of_incomp "worktree-tree".data "checkpoint:".data id (by decide) (by decide),
      matchKV_mkLine_ne "worktree-tree".data "sessionId".data sess (by decide) (by decide),
      matchKV_mkLine_ne "worktree-tree".data "turn".data (intToDec turn) (by decide) (by decide),
      matchKV_mkLine_ne "worktree-tree".data "head".data hs (by decide) (by decide),
      matchKV_mkLine_ne "worktree-tree".data "index-tree".data ix (by decide) (by decide),
      matchKV_self "worktree-tree".data wtS hwt2]
  have hcrF : findField "created".data
      [("tree ".data ++ wtS), ("author ".data ++ au), ("committer ".data ++ co),
        [], ("checkpoint:".data ++ id), mkLine "sessionId".data sess,
        mkLine "turn".data (intToDec turn), mkLine "head".data hs,
        mkLine "index-tree".data ix, mkLine "worktree-tree".data wtS,
        mkLine "created".data (toISOString t)] = some (toISOString t) := by
    simp only [findField, List.findSome?_cons,
      matchKV_none_of_incomp "created".data "tree ".data wtS (by decide) (by decide),
      matchKV_none_of_incomp "created".data "author ".data au (by decide) (by decide),
      matchKV_none_of_incomp "created".data "committer ".data co (by decide) (by decide),
      matchKV_nil,
      matchKV_none_of_incomp "created".data "checkpoint:".data id (by decide) (by decide),
      matchKV_mkLine_ne "created".data "sessionId".data sess (by decide) (by decide),
      matchKV_mkLine_ne "created".data "turn".data (intToDec turn) (by decide) (by decide),
      matchKV_mkLine_ne "created".data "head".data hs (by decide) (by decide),
      matchKV_mkLine_ne "created".data "index-tree".data ix (by decide) (by decide),
      matchKV_mkLine_ne "created".data "worktree-tree".data wtS (by decide) (by decide),
      matchKV_self "created".data (toISOString t) (toISOString_ne_nil t)]
  rw [hsessF, hturnF, hheadF, hixF, hwtF]
  simp only [hcrF, trim_toISOString, jsDateParseMs_toISOString t ht,
    hsess3, hhs3, hix3, hwt3]

end PiCheckpoint

namespace PiCheckpoint

theorem claim_C9_persistence_roundtrip_witness :
    trimChars "s1".data = "s1".data ∧ (86400123 : Nat) < 253234080000000 ∧
    loadCheckpointFromRef
      (createCheckpoint ⟨[], []⟩ "k1".data (-3) "s1".data "c0".data "i0".data
        "w0".data 86400123 "x".data "a".data "c".data).2 "k1".data =
      some (createCheckpoint ⟨[], []⟩ "k1".data (-3) "s1".data "c0".data "i0".data
        "w0".data 86400123 "x".data "a".data "c".data).1 :=
  ⟨by decide, by decide,
    claim_C9_persistence_roundtrip ⟨[], []⟩ "k1".data "s1".data "c0".data
      "i0".data "w0".data "a".data "c".data "x".data (-3) 86400123
      (by decide) (by decide) (by decide) (by decide) (by decide) (by decide)
      (by decide) (by decide) (by decide) (by decide) (by decide) (by decide)
      (by decide) (by decide) (by decide) (by decide)⟩

end PiCheckpoint

namespace PiCheckpoint

/-- C10: `loadCheckpointFromRef` is total and returns `null` rather than
raising: an unreadable ref or commit yields `none`; a message missing any
of the five required lines yields `none`; and when only the `created`
line is missing it yields a record with timestamp 0. -/
theorem claim_C10_load_graceful :
    (∀ (repo : RepoStore) (refName : Str),
      repo.refs.lookup (REF_BASE ++ '/' :: refName) = none →
      loadCheckpointFromRef repo refName = none) ∧
    (∀ (repo : RepoStore) (refName csha : Str),
      repo.refs.lookup (REF_BASE ++ '/' :: refName) = some csha →
      repo.commits.lookup csha = none →
      loadCheckpointFromRef repo refName = none) ∧
    (∀ (repo : RepoStore) (refName csha : Str) (obj : CommitObj),
      repo.refs.lookup (REF_BASE ++ '/' :: refName) = some csha →
      repo.commits.lookup csha = some obj →
      (findField "sessionId".data ((catFileOut obj).splitOn '\n') = none ∨
        findTurn ((catFileOut obj).splitOn '\n') = none ∨
        findField "head".data ((catFileOut obj).splitOn '\n') = none ∨
        findField "index-tree".data ((catFileOut obj).splitOn '\n') = none ∨
        findField "worktree-tree".data ((catFileOut obj).splitOn '\n') = none) →
      loadCheckpointFromRef repo refName = none) ∧
    (∀ (repo : RepoStore) (refName csha : Str) (obj : CommitObj),
      repo.refs.lookup (REF_BASE ++ '/' :: refName) = some csha →
      repo.commits.lookup csha = some obj →
      (findField "sessionId".data ((catFileOut obj).splitOn '\n')).isSome →
      (findTurn ((catFileOut obj).splitOn '\n')).isSome →
      (findField "head".data ((catFileOut obj).splitOn '\n')).isSome →
      (findField "index-tree".data ((catFileOut obj).splitOn '\n')).isSome →
      (findField "worktree-tree".data ((catFileOut obj).splitOn '\n')).isSome →
      findField "created".data ((catFileOut obj).splitOn '\n') = none →
      ∃ d, loadCheckpointFromRef repo refName = some d ∧ d.timestamp = 0) := by
  refine ⟨?_, ?_, ?_, ?_⟩
  · intro repo refName h
    unfold loadCheckpointFromRef
    rw [h]
  · intro repo refName csha h1 h2
    unfold loadCheckpointFromRef
    rw [h1]
    dsimp only
    rw [h2]
  · intro repo refName csha obj h1 h2 hd
    unfold loadCheckpointFromRef
    rw [h1]
    dsimp only
    rw [h2]
    dsimp only
    cases e1 : findField "sessionId".data ((catFileOut obj).splitOn '\n') with
    | none => rfl
    | some v1 =>
      cases e2 : findTurn ((catFileOut obj).splitOn '\n') with
      | none => rfl
      | some v2 =>
        cases e3 : findField "head".data ((catFileOut obj).splitOn '\n') with
        | none => rfl
        | some v3 =>
          cases e4 : findField "index-tree".data ((catFileOut obj).splitOn '\n') with
          | none => rfl
          | some v4 =>
            cases e5 : findField "worktree-tree".data ((catFileOut obj).splitOn '\n') with
            | none => rfl
            | some v5 =>
              exfalso
              rcases hd with h | h | h | h | h
              · rw [e1] at h; exact Option.noConfusion h
              · rw [e2] at h; exact Option.noConfusion h
              · rw [e3] at h; exact Option.noConfusion h
              · rw [e4] at h; exact Option.noConfusion h
              · rw [e5] at h; exact Option.noConfusion h
  · intro repo refName csha obj h1 h2 hs1 hs2 hs3 hs4 hs5 hcr
    unfold loadCheckpointFromRef
    rw [h1]
    dsimp only
    rw [h2]
    dsimp only
    cases e1 : findField "sessionId".data ((catFileOut obj).splitOn '\n') with
    | none => rw [e1] at hs1; simp at hs1
    | some v1 =>
      cases e2 : findTurn ((catFileOut obj).splitOn '\n') with
      | none => rw [e2] at hs2; simp at hs2
      | some v2 =>
        cases e3 : findField "head".data ((catFileOut obj).splitOn '\n') with
        | none => rw [e3] at hs3; simp at hs3
        | some v3 =>
          cases e4 : findField "index-tree".data ((catFileOut obj).splitOn '\n') with
          | none => rw [e4] at hs4; simp at hs4
          | some v4 =>
            cases e5 : findField "worktree-tree".data ((catFileOut obj).splitOn '\n') with
            | none => rw [e5] at hs5; simp at hs5
            | some v5 =>
              rw [hcr]
              exact ⟨_, rfl, rfl⟩

theorem claim_C10_load_graceful_witness :
    (∃ d, loadCheckpointFromRef w10repo "r1".data = some d ∧ d.timestamp = 0) ∧
    loadCheckpointFromRef { refs := [], commits := [] } "r1".data = none :=
  ⟨(claim_C10_load_graceful).2.2.2 w10repo "r1".data "c1".data w10obj
      (by decide) (by decide) (by decide) (by decide) (by decide) (by decide)
      (by decide) (by decide),
    (claim_C10_load_graceful).1 { refs := [], commits := [] } "r1".data (by decide)⟩

end PiCheckpoint
